import Mathlib

/-!
Shallow embedding of the GARVIS request router (`src/router/gar_router.py`,
with the divergent legacy variant `src/router/logs/gar_ollama_proxy.py`
embedded where a claim cites it).  Python dictionaries are modelled as
association lists (Python dicts preserve insertion order and lookups hit
the unique binding; association-list `alget` returns the first binding),
Python numbers as rationals, `None`-able values as `Option`, and fallible
HTTP calls as functions into an explicit result type.
-/

namespace GAR

/-- Character-list version of the test used by the Python operator
`startswith` / the head of substring search: true iff the first list is a
leading segment of the second. -/
def leadsWith : List Char → List Char → Bool
  | [], _ => true
  | _ :: _, [] => false
  | k :: ks, c :: cs => k == c && leadsWith ks cs

/-- Character-list version of Python's substring operator `k in p`:
true iff `ks` occurs contiguously inside `cs` (the empty list occurs
everywhere, as in Python). -/
def occursIn : List Char → List Char → Bool
  | ks, [] => ks.isEmpty
  | ks, c :: cs => leadsWith ks (c :: cs) || occursIn ks cs

/-- Python `k in p` on strings. -/
def strIn (k p : String) : Bool := occursIn k.data p.data

/-- Python `str.lower` (ASCII fragment, as exercised by the router). -/
def strLower (s : String) : String := ⟨s.data.map Char.toLower⟩

/-- Python `str.endswith(suf)` on character lists. -/
def endsWithL (l suf : List Char) : Bool := leadsWith suf.reverse l.reverse

/-- Python `str.removesuffix(suf)` on character lists: drop a trailing
literal occurrence of `suf` if present, else return the list unchanged. -/
def removesuffixL (l suf : List Char) : List Char :=
  if endsWithL l suf then l.take (l.length - suf.length) else l

/-- Python `str.removesuffix(suf)` on strings. -/
def removesuffixS (s suf : String) : String := ⟨removesuffixL s.data suf.data⟩

/-- Association-list form of Python `dict.get(k)`: first binding wins
(a Python dict has unique keys, so this is exact). -/
def alget {α : Type} : List (String × α) → String → Option α
  | [], _ => none
  | (k', v) :: rest, k => if k' = k then some v else alget rest k

/-- Python `k in d` for a dict modelled as an association list. -/
def hasKey {α : Type} (l : List (String × α)) (k : String) : Bool :=
  (alget l k).isSome

/-- Hardware profile entry: the fields of one value of the `hardware`
configuration map (`vram_gb`, `est_tok_s`), each optional because the
Python code reads them with `.get` defaults. -/
structure HardwareInfo where
  vram_gb : Option ℚ
  est_tok_s : Option ℚ
deriving DecidableEq, Repr

/-- Inventory entry parameters: the `params` sub-dict of one inventory
entry (`real_model`, `ctx_tokens`, `vram_req_gb`, `strengths`), read with
`.get` defaults in the Python code. -/
structure InvParams where
  real_model : Option String
  ctx_tokens : Option ℚ
  vram_req_gb : Option ℚ
  strengths : List String
deriving DecidableEq, Repr

/-- One inventory entry: `{endpoint, params}`.  A missing `params` dict in
the source is `meta.get("params", {})`, i.e. the all-defaults value. -/
structure InvEntry where
  endpoint : String
  params : InvParams
deriving DecidableEq, Repr

/-- Routing policy (`policy` config key): fields read with `.get`
defaults in the Python code. -/
structure Policy where
  min_ctx_margin : Option ℚ
  allow_cpu : Option Bool
  prefer_reasoning_for : List String
  prefer_coding_for : List String
deriving DecidableEq, Repr

/-- Process-wide configuration snapshot: the module-level constants
`ENDPOINTS`, `HARDWARE`, `INVENTORY`, `POLICY`, `KEYWORDS` of
`gar_router.py` (endpoint values are base URLs). -/
structure Config where
  endpoints : List (String × String)
  hardware : List (String × HardwareInfo)
  inventory : List (String × InvEntry)
  policy : Policy
  keywords : List (String × List String)
deriving DecidableEq, Repr

/-- Router `_normalize_alias` (gar_router.py lines 60-64): `None`/empty
input gives `None`; otherwise lowercase, then strip a trailing literal
suffix ":latest" if present. -/
def normalizeAlias (name : Option String) : Option String :=
  match name with
  | none => none
  | some s => if s = "" then none else some (removesuffixS (strLower s) ":latest")

/-- Legacy proxy `_normalize_alias` (logs/gar_ollama_proxy.py lines
88-94): `None`/empty input gives `None`; otherwise strip a trailing
":latest" if present — without lowercasing. -/
def proxyNormalizeAlias (a : Option String) : Option String :=
  match a with
  | none => none
  | some s => if s = "" then none else some (removesuffixS s ":latest")

/-- Python banker-free `round(x, 2)` as used on the latency values of this
router: round to the nearest hundredth (all values reached by the claims
round identically in binary floating point and in exact rationals). -/
def round2 (q : ℚ) : ℚ := ((round (q * 100) : ℤ) : ℚ) / 100

/-- Source `estimate_tokens` (gar_router.py line 107): 150-char prompt
gives max(1, int(len(text)/4)); Nat division is the floor of the Python
float division of nonnegative ints. -/
def estimate_tokens (text : String) : ℕ := max 1 (text.length / 4)

/-- Source `fits_context` (gar_router.py line 110). -/
def fits_context (prompt_tokens : ℕ) (ctx_tokens : ℚ) (margin : ℚ) : Bool :=
  decide ((prompt_tokens : ℚ) * (1 + margin) < ctx_tokens)

/-- Effective tokens-per-second for a hardware key: the two-level
`HARDWARE.get(hw_key, {}).get("est_tok_s", 10)` read. -/
def hwTokS (hardware : List (String × HardwareInfo)) (hw_key : String) : ℚ :=
  match alget hardware hw_key with
  | some h => h.est_tok_s.getD 10
  | none => 10

/-- Effective available VRAM for a hardware key: the two-level
`HARDWARE.get(hw, {}).get("vram_gb", 0)` read. -/
def hwVram (hardware : List (String × HardwareInfo)) (hw_key : String) : ℚ :=
  match alget hardware hw_key with
  | some h => h.vram_gb.getD 0
  | none => 0

/-- Source `est_latency_s` (gar_router.py lines 113-115) with the
default argument `out_tokens = 150` inlined (every call site uses it):
`round(150 / max(1, tok_s), 2)`. -/
def est_latency_s (hardware : List (String × HardwareInfo)) (hw_key : String) : ℚ :=
  round2 (150 / max 1 (hwTokS hardware hw_key))

/-- Number of keywords of one group that occur in the (lowercased)
prompt: the inner loop of `pick_by_keywords` accumulating `scores`. -/
def kwHits (kws : List String) (p : String) : ℕ :=
  (kws.filter (fun kw => strIn kw p)).length

/-- First element of a nonempty list maximising `f`, mirroring Python
`max(..., key=f)`, which keeps the earliest element on ties. -/
def firstMaxBy {α : Type} (f : α → ℕ) (x : α) (xs : List α) : α :=
  match xs with
  | [] => x
  | y :: ys =>
    let m := firstMaxBy f y ys
    if f m ≤ f x then x else m

/-- Keyword map as loaded at configuration time (gar_router.py line 24):
every keyword is lowercased once at startup. -/
def loadedKeywords (keywords : List (String × List String)) : List (String × List String) :=
  keywords.map (fun kv => (kv.1, kv.2.map strLower))

/-- Source `pick_by_keywords` (gar_router.py lines 38-45): score each
keyword group against the lowercased prompt, return the key of the first
maximal score when any score is nonzero, else the fixed default "gpu0".
`max(scores, key=...)` iterates dict keys in insertion order and keeps the
first maximum. -/
def scoresOf (keywords : List (String × List String)) (prompt : String) : List (String × ℕ) :=
  keywords.map (fun kv => (kv.1, kwHits kv.2 (strLower prompt)))

/-- The body of `pick_by_keywords` after the scores dict is built. -/
def pick_by_keywords (keywords : List (String × List String)) (prompt : String) : String :=
  match scoresOf keywords prompt with
  | [] => "gpu0"
  | s :: ss => if (s :: ss).any (fun t => t.2 ≠ 0) then (firstMaxBy (fun t => t.2) s ss).1 else "gpu0"

/-- A routing candidate as built by `evaluate_choice`: the tuple
`(mkey, meta["endpoint"], meta)`. -/
def Cand : Type := String × String × InvEntry

instance : DecidableEq Cand := by
  unfold Cand
  infer_instance

/-- Candidate construction of `evaluate_choice` (gar_router.py lines
121-128): a resolving, inventory-present hint yields exactly that entry;
otherwise every inventory entry is a candidate (`nm and nm in INVENTORY`
also demands a non-empty normalized hint). -/
def routerCandidates (cfg : Config) (hint_model : Option String) : List Cand :=
  match normalizeAlias hint_model with
  | some nm =>
    if nm ≠ "" then
      match alget cfg.inventory nm with
      | some meta => [(nm, meta.endpoint, meta)]
      | none => cfg.inventory.map (fun kv => (kv.1, kv.2.endpoint, kv.2))
    else cfg.inventory.map (fun kv => (kv.1, kv.2.endpoint, kv.2))
  | none => cfg.inventory.map (fun kv => (kv.1, kv.2.endpoint, kv.2))

/-- Constraint check of the filter loop (gar_router.py lines 132-136):
context fit against `ctx_tokens` (default 4096) and VRAM fit of
`vram_req_gb` (default 0) against the endpoint's `vram_gb` (default 0). -/
def candOk (hardware : List (String × HardwareInfo)) (ptoks : ℕ) (margin : ℚ) (c : Cand) : Bool :=
  fits_context ptoks (c.2.2.params.ctx_tokens.getD 4096) margin &&
    decide (c.2.2.params.vram_req_gb.getD 0 ≤ hwVram hardware c.2.1)

/-- The `for`-loop building `filtered` (gar_router.py lines 131-137):
append each candidate passing `pred`, preserving order. -/
def filterLoop {α : Type} (pred : α → Bool) : List α → List α
  | [] => []
  | c :: rest => if pred c then c :: filterLoop pred rest else filterLoop pred rest

/-- Policy margin read `float(POLICY.get("min_ctx_margin", 0.2))`. -/
def ctxMargin (policy : Policy) : ℚ := policy.min_ctx_margin.getD (2/10)

/-- Filtered candidate list of `evaluate_choice` for a given prompt and
hint. -/
def routerFiltered (cfg : Config) (prompt : String) (hint_model : Option String) : List Cand :=
  filterLoop (candOk cfg.hardware (estimate_tokens prompt) (ctxMargin cfg.policy))
    (routerCandidates cfg hint_model)

/-- First element of a nonempty list minimising `f`, keeping the earliest
element on ties: the head of Python's stable `sorted(..., key=f)`. -/
def firstMinBy {α β : Type} [LinearOrder β] (f : α → β) (x : α) (xs : List α) : α :=
  match xs with
  | [] => x
  | y :: ys =>
    let m := firstMinBy f y ys
    if f x ≤ f m then x else m

/-- The Decision dictionary returned by `evaluate_choice`: chosen model
alias and endpoint key, reason string, estimated latency, and the
constraint inputs echoed back. -/
structure Decision where
  model : String
  endpoint : String
  reason : String
  lat : ℚ
  prompt_tokens : ℕ
  ctx_margin : ℚ
deriving DecidableEq, Repr

/-- Source `evaluate_choice` (gar_router.py lines 117-161).  The main
branch takes `sorted(filtered, key=est_latency_s ∘ endpoint)[0]`; Python's
sort is stable, so that head is the first candidate attaining the minimal
estimated latency, i.e. `firstMinBy`. -/
def evaluate_choice (cfg : Config) (prompt : String) (hint_model : Option String) : Decision :=
  let ptoks := estimate_tokens prompt
  let margin := ctxMargin cfg.policy
  match routerFiltered cfg prompt hint_model with
  | [] =>
    if cfg.policy.allow_cpu.getD true && hasKey cfg.endpoints "cpu" then
      ⟨"gar-router:latest", "cpu", "No GPU candidate fits; fallback to CPU.",
        est_latency_s cfg.hardware "cpu", ptoks, margin⟩
    else
      match routerCandidates cfg hint_model with
      | c :: _ =>
        ⟨c.1, c.2.1, "No perfect fit; choosing first available.",
          est_latency_s cfg.hardware c.2.1, ptoks, margin⟩
      | [] =>
        ⟨"gar-router:latest", "cpu", "No candidates at all; defaulting to CPU.",
          est_latency_s cfg.hardware "cpu", ptoks, margin⟩
  | b :: bs =>
    let c := firstMinBy (fun t => est_latency_s cfg.hardware t.2.1) b bs
    ⟨c.1, c.2.1, "Chosen by strengths/context and lowest est. latency.",
      est_latency_s cfg.hardware c.2.1, ptoks, margin⟩

/-- Legacy proxy preference construction (logs/gar_ollama_proxy.py lines
177-182): append "reasoning" when any `prefer_reasoning_for` keyword
occurs in the lowercased prompt, then "coding" likewise. -/
def proxyPrefer (policy : Policy) (prompt : String) : List String :=
  let p := strLower prompt
  (if policy.prefer_reasoning_for.any (fun k => strIn k p) then ["reasoning"] else []) ++
    (if policy.prefer_coding_for.any (fun k => strIn k p) then ["coding"] else [])

/-- Legacy proxy heuristic candidate loop (logs/gar_ollama_proxy.py lines
183-186): keep an inventory entry when the preference list is empty or
some preferred tag is among the entry's strengths. -/
def proxyHeuristicCandidates (inventory : List (String × InvEntry)) (prefer : List String) : List Cand :=
  match inventory with
  | [] => []
  | (mkey, meta) :: rest =>
    if prefer.isEmpty || prefer.any (fun s => meta.params.strengths.contains s) then
      (mkey, meta.endpoint, meta) :: proxyHeuristicCandidates rest prefer
    else proxyHeuristicCandidates rest prefer

/-- Body of the primary `/api/generate` call (gar_router.py lines 84-86):
`{prompt, stream: false}` plus `model` only when the resolved name is
non-empty. -/
structure GenBody where
  prompt : String
  stream : Bool
  model : Option String
deriving DecidableEq, Repr

/-- One chat message of the fallback body. -/
structure ChatMsg where
  role : String
  content : String
deriving DecidableEq, Repr

/-- Body of the fallback `/api/chat` call (gar_router.py lines 97-103):
`{model?, messages, stream: false}`, the model key popped when empty. -/
structure ChatBody where
  model : Option String
  messages : List ChatMsg
  stream : Bool
deriving DecidableEq, Repr

/-- An outbound request issued by the forwarder: either the primary
generate path or the fallback chat path. -/
inductive UpReq where
  | generate : GenBody → UpReq
  | chat : ChatBody → UpReq
deriving DecidableEq, Repr

/-- Result of one `_post_json` call: a parsed 2xx body, an
`requests.HTTPError` carrying the status of `e.response` when a response
is attached, or any other network-level exception. -/
inductive UpResult (α : Type) where
  | ok : α → UpResult α
  | httpError : Option ℕ → UpResult α
  | netError : String → UpResult α
deriving DecidableEq, Repr

/-- Fields of the inbound payload consulted by `forward_generate`. -/
structure GenPayload where
  upstream_model : Option String
  model : Option String
  prompt : Option String
deriving DecidableEq, Repr

/-- Python `a or b` on an optional string and a fallback: a present
non-empty string wins, otherwise the fallback. -/
def pyOr (a : Option String) (b : String) : String :=
  match a with
  | some s => if s = "" then b else s
  | none => b

/-- Model-name resolution of `forward_generate` (gar_router.py lines
76-80): first truthy of upstream_model, model, default_model, "" —
then, when non-empty and an inventory alias, the inventory's
`params.real_model` (defaulting to the alias itself). -/
def resolvedRealModel (inventory : List (String × InvEntry)) (payload : GenPayload)
    (default_model : Option String) : String :=
  let chosen := pyOr payload.upstream_model (pyOr payload.model (pyOr default_model ""))
  if chosen ≠ "" then
    match alget inventory chosen with
    | some e => e.params.real_model.getD chosen
    | none => chosen
  else chosen

/-- Primary request body built by `forward_generate`. -/
def genBodyOf (inventory : List (String × InvEntry)) (payload : GenPayload)
    (default_model : Option String) : GenBody :=
  let rm := resolvedRealModel inventory payload default_model
  ⟨payload.prompt.getD "", false, if rm = "" then none else some rm⟩

/-- Fallback chat body built by `forward_generate`: the prompt wrapped as
a single user message, stream false, model omitted when empty. -/
def chatBodyOf (inventory : List (String × InvEntry)) (payload : GenPayload)
    (default_model : Option String) : ChatBody :=
  let rm := resolvedRealModel inventory payload default_model
  ⟨if rm = "" then none else some rm, [⟨"user", payload.prompt.getD ""⟩], false⟩

/-- Source `forward_generate` (gar_router.py lines 71-104), with the
backend abstracted as a function from outbound request to call result:
try `/api/generate`; on an `HTTPError` whose attached response has status
404, issue the single `/api/chat` fallback and return its result; every
other HTTP error status (or an error without attached response) and every
network-level failure propagates unchanged without a retry. -/
def forward_generate {α : Type} (backend : UpReq → UpResult α)
    (inventory : List (String × InvEntry)) (payload : GenPayload)
    (default_model : Option String) : UpResult α :=
  match backend (UpReq.generate (genBodyOf inventory payload default_model)) with
  | UpResult.ok r => UpResult.ok r
  | UpResult.httpError st =>
    if st = some 404 then backend (UpReq.chat (chatBodyOf inventory payload default_model))
    else UpResult.httpError st
  | UpResult.netError m => UpResult.netError m

/-- Outcome of one `do_POST` invocation: a normally produced reply, or
the catch-all `except` branch writing a JSON error with the given HTTP
status. -/
inductive PostResult (α : Type) where
  | reply : α → PostResult α
  | errorReply : ℕ → PostResult α
deriving DecidableEq, Repr

/-- Body-parsing prelude of `Handler.do_POST` (gar_router.py lines
166-221): an empty raw body is replaced by the empty payload `{}`; a
non-empty body goes through `json.loads`, whose failure is caught by the
surrounding `except` and answered with a 500 JSON error; a parsed payload
is handed to the route logic. -/
def handlePost {α β : Type} (emptyPayload : β) (parse : String → Option β)
    (route : β → α) (raw : String) : PostResult α :=
  if raw = "" then PostResult.reply (route emptyPayload)
  else
    match parse raw with
    | some payload => PostResult.reply (route payload)
    | none => PostResult.errorReply 500

lemma alget_mem {α : Type} {l : List (String × α)} {k : String} {v : α}
    (h : alget l k = some v) : (k, v) ∈ l := by
  induction l with
  | nil => simp [alget] at h
  | cons p rest ih =>
    obtain ⟨a, b⟩ := p
    simp only [alget] at h
    by_cases hk : a = k
    · subst hk
      rw [if_pos rfl] at h
      injection h with hv
      subst hv
      exact List.mem_cons_self _ _
    · rw [if_neg hk] at h
      exact List.mem_cons_of_mem _ (ih h)

lemma filterLoop_eq_filter {α : Type} (pred : α → Bool) (l : List α) :
    filterLoop pred l = l.filter pred := by
  induction l with
  | nil => rfl
  | cons c rest ih =>
    by_cases h : pred c <;> simp [filterLoop, h, ih]

lemma filterLoop_sublist {α : Type} (pred : α → Bool) (l : List α) :
    (filterLoop pred l).Sublist l := by
  rw [filterLoop_eq_filter]
  exact List.filter_sublist l

lemma mem_filterLoop {α : Type} (pred : α → Bool) (l : List α) (c : α) :
    c ∈ filterLoop pred l ↔ c ∈ l ∧ pred c = true := by
  rw [filterLoop_eq_filter, List.mem_filter]

lemma firstMinBy_spec {α β : Type} [LinearOrder β] (f : α → β) (x : α) (xs : List α) :
    ∃ i : Fin (x :: xs).length,
      (x :: xs).get i = firstMinBy f x xs ∧
        (∀ j : Fin (x :: xs).length, (j : ℕ) < (i : ℕ) →
          f (firstMinBy f x xs) < f ((x :: xs).get j)) ∧
        (∀ j : Fin (x :: xs).length, f (firstMinBy f x xs) ≤ f ((x :: xs).get j)) := by
  induction xs generalizing x with
  | nil =>
    refine ⟨⟨0, by simp⟩, rfl, ?_, ?_⟩
    · intro j hj
      match j with
      | ⟨0, _⟩ => simp at hj
    · intro j
      match j with
      | ⟨0, _⟩ => exact le_refl _
  | cons y ys ih =>
    obtain ⟨i', h1, h2, h3⟩ := ih y
    by_cases hc : f x ≤ f (firstMinBy f y ys)
    · refine ⟨⟨0, by simp⟩, by simp [firstMinBy, hc], ?_, ?_⟩
      · intro j hj
        simp at hj
      · intro j
        simp only [firstMinBy, if_pos hc]
        match j with
        | ⟨0, _⟩ => exact le_refl _
        | ⟨k + 1, hk⟩ =>
          exact le_trans hc (h3 ⟨k, by simpa using hk⟩)
    · push_neg at hc
      refine ⟨⟨(i' : ℕ) + 1, by simp⟩, ?_, ?_, ?_⟩
      · simpa [firstMinBy, not_le.mpr hc] using h1
      · intro j hj
        simp only [firstMinBy, not_le.mpr hc, if_false]
        match j with
        | ⟨0, _⟩ => exact hc
        | ⟨k + 1, hk⟩ =>
          exact h2 ⟨k, by simpa using hk⟩ (by simpa using hj)
      · intro j
        simp only [firstMinBy, not_le.mpr hc, if_false]
        match j with
        | ⟨0, _⟩ => exact le_of_lt hc
        | ⟨k + 1, hk⟩ => exact h3 ⟨k, by simpa using hk⟩

lemma firstMinBy_mem {α β : Type} [LinearOrder β] (f : α → β) (x : α) (xs : List α) :
    firstMinBy f x xs ∈ x :: xs := by
  obtain ⟨i, h1, -, -⟩ := firstMinBy_spec f x xs
  exact List.mem_iff_get.mpr ⟨i, h1⟩

lemma firstMaxBy_spec {α : Type} (f : α → ℕ) (x : α) (xs : List α) :
    ∃ i : Fin (x :: xs).length,
      (x :: xs).get i = firstMaxBy f x xs ∧
        (∀ j : Fin (x :: xs).length, (j : ℕ) < (i : ℕ) →
          f ((x :: xs).get j) < f (firstMaxBy f x xs)) ∧
        (∀ j : Fin (x :: xs).length, f ((x :: xs).get j) ≤ f (firstMaxBy f x xs)) := by
  induction xs generalizing x with
  | nil =>
    refine ⟨⟨0, by simp⟩, rfl, ?_, ?_⟩
    · intro j hj
      match j with
      | ⟨0, _⟩ => simp at hj
    · intro j
      match j with
      | ⟨0, _⟩ => exact le_refl _
  | cons y ys ih =>
    obtain ⟨i', h1, h2, h3⟩ := ih y
    by_cases hc : f (firstMaxBy f y ys) ≤ f x
    · refine ⟨⟨0, by simp⟩, by simp [firstMaxBy, hc], ?_, ?_⟩
      · intro j hj
        simp at hj
      · intro j
        simp only [firstMaxBy, if_pos hc]
        match j with
        | ⟨0, _⟩ => exact le_refl _
        | ⟨k + 1, hk⟩ =>
          exact le_trans (h3 ⟨k, by simpa using hk⟩) hc
    · push_neg at hc
      refine ⟨⟨(i' : ℕ) + 1, by simp⟩, ?_, ?_, ?_⟩
      · simpa [firstMaxBy, not_le.mpr hc] using h1
      · intro j hj
        simp only [firstMaxBy, not_le.mpr hc, if_false]
        match j with
        | ⟨0, _⟩ => exact hc
        | ⟨k + 1, hk⟩ =>
          exact h2 ⟨k, by simpa using hk⟩ (by simpa using hj)
      · intro j
        simp only [firstMaxBy, not_le.mpr hc, if_false]
        match j with
        | ⟨0, _⟩ => exact le_of_lt hc
        | ⟨k + 1, hk⟩ => exact h3 ⟨k, by simpa using hk⟩

lemma proxyHeuristicCandidates_cons (mkey : String) (meta : InvEntry)
    (rest : List (String × InvEntry)) (prefer : List String) :
    proxyHeuristicCandidates ((mkey, meta) :: rest) prefer =
      if (prefer.isEmpty || prefer.any (fun s => meta.params.strengths.contains s)) = true
      then (mkey, meta.endpoint, meta) :: proxyHeuristicCandidates rest prefer
      else proxyHeuristicCandidates rest prefer := rfl

lemma round2_nonneg {q : ℚ} (h : 0 ≤ q) : 0 ≤ round2 q := by
  unfold round2
  have h100 : (0 : ℚ) ≤ q * 100 := by positivity
  have : (0 : ℤ) ≤ round (q * 100) := by
    rw [round_eq]
    have : (0 : ℚ) ≤ q * 100 + 1 / 2 := by linarith
    exact_mod_cast Int.floor_nonneg.mpr this
  positivity

lemma leadsWith_iff (ks cs : List Char) :
    leadsWith ks cs = true ↔ ∃ t, cs = ks ++ t := by
  induction ks generalizing cs with
  | nil => simp [leadsWith]
  | cons k ks ih =>
    cases cs with
    | nil => simp [leadsWith]
    | cons c cs =>
      rw [leadsWith, Bool.and_eq_true, beq_iff_eq, ih]
      constructor
      · rintro ⟨rfl, t, rfl⟩
        exact ⟨t, rfl⟩
      · rintro ⟨t, ht⟩
        simp only [List.cons_append, List.cons.injEq] at ht
        exact ⟨ht.1.symm, t, ht.2⟩

lemma endsWithL_iff (l suf : List Char) :
    endsWithL l suf = true ↔ ∃ pre, l = pre ++ suf := by
  rw [endsWithL, leadsWith_iff]
  constructor
  · rintro ⟨t, ht⟩
    refine ⟨t.reverse, ?_⟩
    have := congrArg List.reverse ht
    simpa [List.reverse_append] using this
  · rintro ⟨pre, rfl⟩
    exact ⟨pre.reverse, by simp [List.reverse_append]⟩

lemma removesuffixL_spec (l suf : List Char) :
    (∃ pre, l = pre ++ suf ∧ removesuffixL l suf = pre) ∨
      ((¬ ∃ pre, l = pre ++ suf) ∧ removesuffixL l suf = l) := by
  by_cases h : endsWithL l suf = true
  · obtain ⟨pre, hp⟩ := (endsWithL_iff l suf).mp h
    left
    refine ⟨pre, hp, ?_⟩
    rw [removesuffixL, if_pos h, hp, List.length_append]
    simp [List.take_left]
  · right
    refine ⟨fun hc => h ((endsWithL_iff l suf).mpr hc), ?_⟩
    rw [removesuffixL, if_neg h]

/-- C8 counterexample: the alias normalization of the cited legacy proxy
(logs/gar_ollama_proxy.py) does not lowercase, so the claimed
normalize("Foo") = "foo" fails on it. -/
theorem C8_counterexample :
    proxyNormalizeAlias (some "Foo") = some "Foo" ∧
      (some "Foo" : Option String) ≠ some "foo" := by
  decide

/-- C8 (amended): the primary router normalization returns null on
null/empty input and otherwise lowercases and then strips one trailing
":latest" if present (so normalize("Foo:latest") = normalize("Foo") =
"foo"); the legacy proxy variant strips the suffix without lowercasing.
Both are pure Lean functions, hence side-effect free. -/
theorem C8_alias_normalization :
    normalizeAlias none = none ∧
    normalizeAlias (some "") = none ∧
    (∀ s : String, s ≠ "" →
      ∃ t, normalizeAlias (some s) = some t ∧
        ((strLower s).data = t.data ++ (":latest").data ∨
          (¬ (∃ pre, (strLower s).data = pre ++ (":latest").data) ∧ t = strLower s))) ∧
    normalizeAlias (some "Foo:latest") = some "foo" ∧
    normalizeAlias (some "Foo") = some "foo" ∧
    (∀ s : String, s ≠ "" →
      ∃ t, proxyNormalizeAlias (some s) = some t ∧
        (s.data = t.data ++ (":latest").data ∨
          (¬ (∃ pre, s.data = pre ++ (":latest").data) ∧ t = s))) := by
  refine ⟨rfl, rfl, ?_, by decide, by decide, ?_⟩
  · intro s hs
    refine ⟨removesuffixS (strLower s) ":latest", by simp [normalizeAlias, hs], ?_⟩
    rcases removesuffixL_spec (strLower s).data (":latest").data with ⟨pre, hp, hr⟩ | ⟨hn, hr⟩
    · left
      rw [hp, removesuffixS]
      simp [hr]
    · right
      refine ⟨hn, ?_⟩
      rw [removesuffixS, hr]
  · intro s hs
    refine ⟨removesuffixS s ":latest", by simp [proxyNormalizeAlias, hs], ?_⟩
    rcases removesuffixL_spec s.data (":latest").data with ⟨pre, hp, hr⟩ | ⟨hn, hr⟩
    · left
      rw [hp, removesuffixS]
      simp [hr]
    · right
      refine ⟨hn, ?_⟩
      rw [removesuffixS, hr]

/-- C8 witness: the amended normalization property applied at the
concrete non-empty alias "Bar:latest". -/
theorem C8_witness :
    ∃ t, normalizeAlias (some "Bar:latest") = some t ∧
      ((strLower "Bar:latest").data = t.data ++ (":latest").data ∨
        (¬ (∃ pre, (strLower "Bar:latest").data = pre ++ (":latest").data) ∧
          t = strLower "Bar:latest")) :=
  C8_alias_normalization.2.2.1 "Bar:latest" (by decide)

/-- C9 counterexample: two keyword groups tied at one hit each; the code
returns the first tied key ("alpha"), not the claimed default "gpu0". -/
theorem C9_counterexample :
    pick_by_keywords (loadedKeywords [("alpha", ["x"]), ("beta", ["x"])]) "x" = "alpha" ∧
      ("alpha" : String) ≠ "gpu0" := by
  decide

/-- C9 (amended): when every keyword group scores zero (or none is
configured) `pick_by_keywords` returns the default "gpu0"; when any group
scores nonzero it returns the key of the first group attaining the
maximal case-insensitive substring hit count, in configuration order —
ties are broken toward the earlier key, not toward "gpu0". -/
theorem C9_keyword_pick (kwmap : List (String × List String)) (prompt : String) :
    (scoresOf kwmap prompt = [] → pick_by_keywords kwmap prompt = "gpu0") ∧
    (∀ s ss, scoresOf kwmap prompt = s :: ss →
      (s :: ss).all (fun t => t.2 = 0) = true → pick_by_keywords kwmap prompt = "gpu0") ∧
    (∀ s ss, scoresOf kwmap prompt = s :: ss →
      (s :: ss).any (fun t => t.2 ≠ 0) = true →
      ∃ i : Fin (s :: ss).length,
        pick_by_keywords kwmap prompt = ((s :: ss).get i).1 ∧
          (∀ j : Fin (s :: ss).length, (j : ℕ) < (i : ℕ) →
            ((s :: ss).get j).2 < ((s :: ss).get i).2) ∧
          (∀ j : Fin (s :: ss).length, ((s :: ss).get j).2 ≤ ((s :: ss).get i).2)) := by
  refine ⟨?_, ?_, ?_⟩
  · intro h
    simp [pick_by_keywords, h]
  · intro s ss h hall
    have hany : (s :: ss).any (fun t => t.2 ≠ 0) = false := by
      rw [List.any_eq_false]
      intro t ht
      have := List.all_eq_true.mp hall t ht
      simpa using this
    simp only [pick_by_keywords, h]
    rw [hany]
    simp
  · intro s ss h hany
    obtain ⟨i, h1, h2, h3⟩ := firstMaxBy_spec (fun t => t.2) s ss
    refine ⟨i, ?_, ?_, ?_⟩
    · simp only [pick_by_keywords, h, hany, if_true]
      rw [h1]
    · intro j hj
      rw [h1]
      exact h2 j hj
    · intro j
      rw [h1]
      exact h3 j

/-- C9 witness: the amended pick property applied at a concrete keyword
map where the second group scores the strict maximum. -/
theorem C9_witness :
    scoresOf [("alpha", ["zz"]), ("beta", ["x"])] "x" = [("alpha", 0), ("beta", 1)] ∧
      ∃ i : Fin ([("alpha", 0), ("beta", (1 : ℕ))] : List (String × ℕ)).length,
        pick_by_keywords [("alpha", ["zz"]), ("beta", ["x"])] "x" =
            (([("alpha", 0), ("beta", 1)] : List (String × ℕ)).get i).1 ∧
          (∀ j : Fin ([("alpha", 0), ("beta", (1 : ℕ))] : List (String × ℕ)).length,
            (j : ℕ) < (i : ℕ) →
            (([("alpha", 0), ("beta", 1)] : List (String × ℕ)).get j).2 <
              (([("alpha", 0), ("beta", 1)] : List (String × ℕ)).get i).2) ∧
          (∀ j : Fin ([("alpha", 0), ("beta", (1 : ℕ))] : List (String × ℕ)).length,
            (([("alpha", 0), ("beta", 1)] : List (String × ℕ)).get j).2 ≤
              (([("alpha", 0), ("beta", 1)] : List (String × ℕ)).get i).2) :=
  ⟨by decide,
    (C9_keyword_pick [("alpha", ["zz"]), ("beta", ["x"])] "x").2.2 ("alpha", 0) [("beta", 1)]
      (by decide) (by decide)⟩

/-- C10 counterexample: with a configured throughput of 100000 tokens per
second the estimated latency rounds to exactly 0, so the claimed strict
positivity fails. -/
theorem C10_counterexample :
    est_latency_s [("gpu0", ⟨none, some 100000⟩)] "gpu0" = 0 ∧
      ¬ (0 < est_latency_s [("gpu0", ⟨none, some 100000⟩)] "gpu0") := by
  have h : est_latency_s [("gpu0", ⟨none, some 100000⟩)] "gpu0" = 0 := by
    norm_num [est_latency_s, hwTokS, alget, round2, round_eq,
      max_eq_right (by norm_num : (1 : ℚ) ≤ 100000)]
  exact ⟨h, by rw [h]; exact lt_irrefl 0⟩

/-- C10 (amended): `est_latency_s` is total and never divides by zero —
the divisor is clamped by max(1, tok_s) — and its value is always
nonnegative (it can round to exactly 0 for very large throughputs); a
missing hardware profile, or a profile without est_tok_s, defaults the
throughput to 10, giving latency 15; any throughput at most 1 is clamped
to 1, giving latency 150. -/
theorem C10_latency_total_nonneg (hardware : List (String × HardwareInfo)) (hw_key : String) :
    0 ≤ est_latency_s hardware hw_key ∧
    (alget hardware hw_key = none → est_latency_s hardware hw_key = 15) ∧
    (∀ h, alget hardware hw_key = some h → h.est_tok_s = none →
      est_latency_s hardware hw_key = 15) ∧
    (∀ h t, alget hardware hw_key = some h → h.est_tok_s = some t → t ≤ 1 →
      est_latency_s hardware hw_key = 150) := by
  refine ⟨?_, ?_, ?_, ?_⟩
  · unfold est_latency_s
    apply round2_nonneg
    have h1 : (1 : ℚ) ≤ max 1 (hwTokS hardware hw_key) := le_max_left _ _
    positivity
  · intro h
    unfold est_latency_s hwTokS
    rw [h, max_eq_right (by norm_num : (1 : ℚ) ≤ 10)]
    norm_num [round2, round_eq]
  · intro hw hsome hnone
    unfold est_latency_s hwTokS
    rw [hsome]
    simp only [hnone, Option.getD_none]
    rw [max_eq_right (by norm_num : (1 : ℚ) ≤ 10)]
    norm_num [round2, round_eq]
  · intro hw t hsome ht hle
    unfold est_latency_s hwTokS
    rw [hsome]
    simp only [ht, Option.getD_some]
    rw [max_eq_left hle]
    norm_num [round2, round_eq]

/-- C10 witness: the amended latency property applied at the empty
hardware map, where the missing profile defaults to latency 15. -/
theorem C10_witness :
    alget ([] : List (String × HardwareInfo)) "cpu" = none ∧
      est_latency_s [] "cpu" = 15 :=
  ⟨rfl, (C10_latency_total_nonneg [] "cpu").2.1 rfl⟩

/-- C4: the constraint filter loop keeps exactly the candidates passing
the strict context check max(1, floor(len(prompt)/4)) * (1 + margin) <
ctx_tokens (default 4096) and the VRAM check vram_req_gb (default 0) ≤
endpoint VRAM (0 for endpoints without a hardware profile), preserving the
relative input order of the survivors. -/
theorem C4_constraint_filter (hardware : List (String × HardwareInfo)) (prompt : String)
    (margin : ℚ) (cands : List Cand) :
    filterLoop (candOk hardware (estimate_tokens prompt) margin) cands =
      cands.filter (fun c =>
        decide ((((max 1 (prompt.length / 4) : ℕ) : ℚ) * (1 + margin) <
            c.2.2.params.ctx_tokens.getD 4096) ∧
          c.2.2.params.vram_req_gb.getD 0 ≤ hwVram hardware c.2.1)) ∧
    (filterLoop (candOk hardware (estimate_tokens prompt) margin) cands).Sublist cands ∧
    (∀ c : Cand, c ∈ filterLoop (candOk hardware (estimate_tokens prompt) margin) cands ↔
      c ∈ cands ∧ candOk hardware (estimate_tokens prompt) margin c = true) := by
  refine ⟨?_, filterLoop_sublist _ _, fun c => mem_filterLoop _ _ c⟩
  rw [filterLoop_eq_filter]
  apply List.filter_congr
  intro c hc
  simp only [candOk, fits_context, estimate_tokens, Bool.decide_and]

/-- C5: on an HTTP 404 from the primary /api/generate call,
`forward_generate` issues exactly one fallback /api/chat call whose body
wraps the prompt as a single user message with stream false and the model
field omitted when the resolved name is empty, and returns that call's
result; a success is returned as is, and every other HTTP error status
(or an HTTP error with no attached response) and every network-level
failure propagates unchanged with no retry. -/
theorem C5_forward_fallback {α : Type} (backend : UpReq → UpResult α)
    (inventory : List (String × InvEntry)) (payload : GenPayload) (dm : Option String) :
    (∀ r, backend (UpReq.generate (genBodyOf inventory payload dm)) = UpResult.ok r →
      forward_generate backend inventory payload dm = UpResult.ok r) ∧
    (backend (UpReq.generate (genBodyOf inventory payload dm)) = UpResult.httpError (some 404) →
      forward_generate backend inventory payload dm =
        backend (UpReq.chat
          ⟨if resolvedRealModel inventory payload dm = "" then none
            else some (resolvedRealModel inventory payload dm),
            [⟨"user", payload.prompt.getD ""⟩], false⟩)) ∧
    (∀ st, st ≠ some 404 →
      backend (UpReq.generate (genBodyOf inventory payload dm)) = UpResult.httpError st →
      forward_generate backend inventory payload dm = UpResult.httpError st) ∧
    (∀ m, backend (UpReq.generate (genBodyOf inventory payload dm)) = UpResult.netError m →
      forward_generate backend inventory payload dm = UpResult.netError m) := by
  refine ⟨?_, ?_, ?_, ?_⟩
  · intro r h
    simp [forward_generate, h]
  · intro h
    simp [forward_generate, h, chatBodyOf]
  · intro st hne h
    simp [forward_generate, h, hne]
  · intro m h
    simp [forward_generate, h]

/-- C6 counterexample: the preference group "reasoning" triggers on the
prompt, no inventory entry's strengths intersect it, and the resulting
candidate set is empty rather than the full inventory claimed. -/
theorem C6_counterexample :
    proxyPrefer ⟨none, none, ["math"], []⟩ "do math" = ["reasoning"] ∧
    proxyHeuristicCandidates [("m", ⟨"gpu0", ⟨none, none, none, ["coding"]⟩⟩)]
        (proxyPrefer ⟨none, none, ["math"], []⟩ "do math") = [] ∧
    ([("m", (⟨"gpu0", ⟨none, none, none, ["coding"]⟩⟩ : InvEntry))]).map
        (fun kv => (kv.1, kv.2.endpoint, kv.2)) ≠ [] := by
  refine ⟨by decide, by decide, by simp⟩

/-- C6 (amended): in the legacy proxy's heuristic selection the
preference list is empty exactly when neither keyword group triggers on
the lowercased prompt; with an empty preference list the candidate set is
the full inventory (in order), and with a non-empty one it is exactly the
inventory entries whose strength tags intersect the triggered groups —
possibly empty, in which case the fallback ladder applies.  The primary
router (gar_router.py) applies no keyword restriction at all in no-hint
mode. -/
theorem C6_heuristic_candidates (inventory : List (String × InvEntry)) (policy : Policy)
    (prompt : String) :
    (proxyPrefer policy prompt = [] →
      proxyHeuristicCandidates inventory (proxyPrefer policy prompt) =
        inventory.map (fun kv => (kv.1, kv.2.endpoint, kv.2))) ∧
    (proxyPrefer policy prompt ≠ [] →
      proxyHeuristicCandidates inventory (proxyPrefer policy prompt) =
        (inventory.filter (fun kv =>
          (proxyPrefer policy prompt).any (fun s => kv.2.params.strengths.contains s))).map
          (fun kv => (kv.1, kv.2.endpoint, kv.2))) ∧
    (proxyPrefer policy prompt = [] ↔
      policy.prefer_reasoning_for.any (fun k => strIn k (strLower prompt)) = false ∧
        policy.prefer_coding_for.any (fun k => strIn k (strLower prompt)) = false) := by
  refine ⟨?_, ?_, ?_⟩
  · intro h
    rw [h]
    induction inventory with
    | nil => rfl
    | cons kv rest ih =>
      obtain ⟨mkey, meta⟩ := kv
      simp [proxyHeuristicCandidates, ih]
  · intro h
    have hne : (proxyPrefer policy prompt).isEmpty = false := by
      cases hp : proxyPrefer policy prompt with
      | nil => exact absurd hp h
      | cons a as => rfl
    induction inventory with
    | nil => rfl
    | cons kv rest ih =>
      obtain ⟨mkey, meta⟩ := kv
      rw [proxyHeuristicCandidates_cons, hne, Bool.false_or]
      by_cases hm : (proxyPrefer policy prompt).any
          (fun s => meta.params.strengths.contains s) = true
      · rw [if_pos hm, ih,
          List.filter_cons_of_pos (p := fun kv : String × InvEntry =>
            (proxyPrefer policy prompt).any fun s => kv.2.params.strengths.contains s) hm,
          List.map_cons]
      · have hm' : ((proxyPrefer policy prompt).any
            (fun s => meta.params.strengths.contains s)) = false :=
          Bool.eq_false_iff.mpr hm
        rw [if_neg (by rw [hm']; exact Bool.false_ne_true), ih,
          List.filter_cons_of_neg (p := fun kv : String × InvEntry =>
            (proxyPrefer policy prompt).any fun s => kv.2.params.strengths.contains s) hm]
  · unfold proxyPrefer
    by_cases h1 : policy.prefer_reasoning_for.any (fun k => strIn k (strLower prompt)) = true <;>
      by_cases h2 : policy.prefer_coding_for.any (fun k => strIn k (strLower prompt)) = true <;>
      simp [h1, h2]

/-- C6 witness: the amended selection property applied at a concrete
triggered configuration where exactly the strength-matching entry
survives. -/
theorem C6_witness :
    proxyPrefer ⟨none, none, ["math"], []⟩ "do math" ≠ [] ∧
      proxyHeuristicCandidates
          [("m", ⟨"gpu0", ⟨none, none, none, ["coding"]⟩⟩),
            ("r", ⟨"gpu1", ⟨none, none, none, ["reasoning"]⟩⟩)]
          (proxyPrefer ⟨none, none, ["math"], []⟩ "do math") =
        (([("m", ⟨"gpu0", ⟨none, none, none, ["coding"]⟩⟩),
            ("r", (⟨"gpu1", ⟨none, none, none, ["reasoning"]⟩⟩ : InvEntry))]).filter
          (fun kv => (proxyPrefer ⟨none, none, ["math"], []⟩ "do math").any
            (fun s => kv.2.params.strengths.contains s))).map
          (fun kv => (kv.1, kv.2.endpoint, kv.2)) :=
  ⟨by decide,
    (C6_heuristic_candidates
      [("m", ⟨"gpu0", ⟨none, none, none, ["coding"]⟩⟩),
        ("r", ⟨"gpu1", ⟨none, none, none, ["reasoning"]⟩⟩)]
      ⟨none, none, ["math"], []⟩ "do math").2.1 (by decide)⟩

/-- C7 counterexample: a non-empty body that fails to parse is answered
with the catch-all 500 JSON error, not processed as an empty request. -/
theorem C7_counterexample :
    handlePost (0 : ℕ) (fun _ => (none : Option ℕ)) (fun p => p) "not json" =
        PostResult.errorReply 500 ∧
      (PostResult.errorReply 500 : PostResult ℕ) ≠ PostResult.reply 0 := by
  decide

/-- C7 (amended): an empty POST body is replaced by the empty payload and
processed with defaults; a non-empty body that parses is processed as
parsed; a non-empty body that `json.loads` rejects raises into the
handler's catch-all and is answered with a 500 JSON error response. -/
theorem C7_malformed_body {α β : Type} (emptyPayload : β) (parse : String → Option β)
    (route : β → α) (raw : String) :
    (raw = "" → handlePost emptyPayload parse route raw = PostResult.reply (route emptyPayload)) ∧
    (∀ p, raw ≠ "" → parse raw = some p →
      handlePost emptyPayload parse route raw = PostResult.reply (route p)) ∧
    (raw ≠ "" → parse raw = none →
      handlePost emptyPayload parse route raw = PostResult.errorReply 500) := by
  refine ⟨?_, ?_, ?_⟩
  · intro h
    simp [handlePost, h]
  · intro p hne hp
    simp [handlePost, hne, hp]
  · intro hne hp
    simp [handlePost, hne, hp]

/-- C7 witness: the amended handler property applied at an empty raw
body, which is processed with the default payload. -/
theorem C7_witness :
    handlePost (0 : ℕ) (fun _ => (none : Option ℕ)) (fun p => p + 1) "" =
      PostResult.reply 1 :=
  (C7_malformed_body 0 (fun _ => (none : Option ℕ)) (fun p => p + 1) "").1 rfl

/-- Backend stub whose primary path answers 404 and whose chat path
succeeds, exercising the forwarder's fallback. -/
def chatOnlyBackend : UpReq → UpResult ℕ := fun r =>
  match r with
  | UpReq.generate _ => UpResult.httpError (some 404)
  | UpReq.chat _ => UpResult.ok 7

/-- C5 witness: the forwarding fallback property applied to a concrete
backend that 404s on /api/generate and succeeds on /api/chat. -/
theorem C5_witness :
    forward_generate chatOnlyBackend [] ⟨none, some "m", some "hi"⟩ none = UpResult.ok 7 :=
  ((C5_forward_fallback chatOnlyBackend [] ⟨none, some "m", some "hi"⟩ none).2.1 rfl).trans rfl

/-- Every candidate produced by `routerCandidates` carries an endpoint key
drawn from an inventory entry; under the configuration invariant that
inventory endpoints are configured, each candidate endpoint is
configured. -/
lemma routerCandidates_endpoint_hasKey (cfg : Config) (hint : Option String)
    (hinv : ∀ p ∈ cfg.inventory, hasKey cfg.endpoints p.2.endpoint = true) :
    ∀ c ∈ routerCandidates cfg hint, hasKey cfg.endpoints c.2.1 = true := by
  have hmap : ∀ c ∈ cfg.inventory.map (fun kv => (kv.1, kv.2.endpoint, kv.2)),
      hasKey cfg.endpoints c.2.1 = true := by
    intro c hc
    obtain ⟨kv, hkv, rfl⟩ := List.mem_map.mp hc
    exact hinv kv hkv
  intro c hc
  unfold routerCandidates at hc
  cases hn : normalizeAlias hint with
  | none =>
    rw [hn] at hc
    exact hmap c hc
  | some nm =>
    rw [hn] at hc
    dsimp only [] at hc
    by_cases hnm : nm ≠ ""
    · rw [if_pos hnm] at hc
      cases ha : alget cfg.inventory nm with
      | some meta =>
        rw [ha] at hc
        have hce : c = (nm, meta.endpoint, meta) := by simpa using hc
        subst hce
        exact hinv (nm, meta) (alget_mem ha)
      | none =>
        rw [ha] at hc
        exact hmap c hc
    · rw [if_neg hnm] at hc
      exact hmap c hc

/-- C1 counterexample: with no "cpu" endpoint configured and an empty
inventory, the third fallback tier still returns endpoint "cpu", which is
not a configured endpoint key. -/
theorem C1_counterexample :
    (evaluate_choice ⟨[("gpu0", "http://g")], [], [], ⟨none, none, [], []⟩, []⟩ "" none).endpoint
        = "cpu" ∧
      hasKey (⟨[("gpu0", "http://g")], [], [], ⟨none, none, [], []⟩, []⟩ : Config).endpoints "cpu"
        = false := by
  constructor
  · simp [evaluate_choice, routerFiltered, routerCandidates, normalizeAlias, alget,
      filterLoop, candOk, hasKey]
  · decide

/-- C1 (amended): whenever the configuration is internally consistent —
every inventory entry's endpoint key is configured and a "cpu" endpoint
is configured — every decision of `evaluate_choice` targets a configured
endpoint key; without a configured "cpu" endpoint the CPU fallback tiers
break the invariant. -/
theorem C1_router_decision_endpoint (cfg : Config) (prompt : String) (hint : Option String)
    (hinv : ∀ p ∈ cfg.inventory, hasKey cfg.endpoints p.2.endpoint = true)
    (hcpu : hasKey cfg.endpoints "cpu" = true) :
    hasKey cfg.endpoints (evaluate_choice cfg prompt hint).endpoint = true := by
  cases hf : routerFiltered cfg prompt hint with
  | nil =>
    by_cases hallow : cfg.policy.allow_cpu.getD true = true
    · simp [evaluate_choice, hf, hallow, hcpu]
    · have hallow' : cfg.policy.allow_cpu.getD true = false := Bool.eq_false_iff.mpr hallow
      cases hcand : routerCandidates cfg hint with
      | nil => simp [evaluate_choice, hf, hallow', hcand, hcpu]
      | cons c cs =>
        have hok := routerCandidates_endpoint_hasKey cfg hint hinv c
          (hcand ▸ List.mem_cons_self c cs)
        simp [evaluate_choice, hf, hallow', hcand, hok]
  | cons b bs =>
    have hmem : firstMinBy (fun t : Cand => est_latency_s cfg.hardware t.2.1) b bs ∈ b :: bs :=
      firstMinBy_mem _ b bs
    have hfil : firstMinBy (fun t : Cand => est_latency_s cfg.hardware t.2.1) b bs ∈
        routerFiltered cfg prompt hint := hf ▸ hmem
    have hcand : firstMinBy (fun t : Cand => est_latency_s cfg.hardware t.2.1) b bs ∈
        routerCandidates cfg hint := by
      unfold routerFiltered at hfil
      exact ((mem_filterLoop _ _ _).mp hfil).1
    have hok := routerCandidates_endpoint_hasKey cfg hint hinv _ hcand
    simp [evaluate_choice, hf, hok]

/-- C1 witness: the amended endpoint invariant applied at a consistent
concrete configuration with a cpu endpoint and a gpu inventory entry. -/
theorem C1_witness :
    hasKey (⟨[("cpu", "uc"), ("gpu0", "u0")], [],
        [("m", ⟨"gpu0", ⟨none, none, none, []⟩⟩)], ⟨none, none, [], []⟩, []⟩ : Config).endpoints
      (evaluate_choice ⟨[("cpu", "uc"), ("gpu0", "u0")], [],
        [("m", ⟨"gpu0", ⟨none, none, none, []⟩⟩)], ⟨none, none, [], []⟩, []⟩ "" none).endpoint
      = true :=
  C1_router_decision_endpoint _ "" none (by decide) (by decide)

/-- C2: with an empty filtered candidate list, `evaluate_choice` applies
exactly one of three mutually exclusive fallback tiers in order: CPU
fallback when policy allows it and a "cpu" endpoint is configured; else
the first pre-filter candidate when any exists; else the unconditional
CPU default — the last even when no "cpu" endpoint is configured. -/
theorem C2_fallback_ladder (cfg : Config) (prompt : String) (hint : Option String)
    (hf : routerFiltered cfg prompt hint = []) :
    ((cfg.policy.allow_cpu.getD true && hasKey cfg.endpoints "cpu") = true →
      (evaluate_choice cfg prompt hint).endpoint = "cpu" ∧
        (evaluate_choice cfg prompt hint).reason = "No GPU candidate fits; fallback to CPU.") ∧
    (∀ c cs, (cfg.policy.allow_cpu.getD true && hasKey cfg.endpoints "cpu") = false →
      routerCandidates cfg hint = c :: cs →
      (evaluate_choice cfg prompt hint).model = c.1 ∧
        (evaluate_choice cfg prompt hint).endpoint = c.2.1 ∧
        (evaluate_choice cfg prompt hint).reason = "No perfect fit; choosing first available.") ∧
    ((cfg.policy.allow_cpu.getD true && hasKey cfg.endpoints "cpu") = false →
      routerCandidates cfg hint = [] →
      (evaluate_choice cfg prompt hint).endpoint = "cpu" ∧
        (evaluate_choice cfg prompt hint).reason = "No candidates at all; defaulting to CPU.") := by
  refine ⟨?_, ?_, ?_⟩
  · intro h
    simp [evaluate_choice, hf, h]
  · intro c cs h hc
    simp [evaluate_choice, hf, h, hc]
  · intro h hc
    simp [evaluate_choice, hf, h, hc]

/-- Concrete ladder configuration: one inventory entry that fits neither
context nor VRAM, CPU fallback allowed, "cpu" endpoint configured. -/
def cfgLadder : Config :=
  ⟨[("cpu", "http://cpu")], [], [("big", ⟨"gpu0", ⟨none, some 1, some 40, []⟩⟩)],
    ⟨some 0, some true, [], []⟩, []⟩

/-- C2 witness: the ladder property applied at a configuration whose only
candidate fails the constraints, landing in the first tier. -/
theorem C2_witness :
    routerFiltered cfgLadder "" none = [] ∧
      (evaluate_choice cfgLadder "" none).endpoint = "cpu" ∧
      (evaluate_choice cfgLadder "" none).reason = "No GPU candidate fits; fallback to CPU." := by
  have hf : routerFiltered cfgLadder "" none = [] := by
    simp [routerFiltered, routerCandidates, normalizeAlias, alget, filterLoop, candOk,
      fits_context, estimate_tokens, ctxMargin, hwVram, cfgLadder]
  exact ⟨hf, (C2_fallback_ladder cfgLadder "" none hf).1 (by decide)⟩

/-- C3: with a nonempty filtered candidate list the decision is the
first candidate attaining the minimal estimated latency
round(150 / max(1, tokens_per_second), 2) of its endpoint: it belongs to
the filtered list, its latency is a lower bound of every filtered
candidate's latency, and every candidate strictly before it in input
order has strictly larger latency — deterministically, since
`evaluate_choice` is a function of its inputs. -/
theorem C3_latency_ranking (cfg : Config) (prompt : String) (hint : Option String)
    (b : Cand) (bs : List Cand) (hf : routerFiltered cfg prompt hint = b :: bs) :
    let f : Cand → ℚ := fun t => est_latency_s cfg.hardware t.2.1
    let c := firstMinBy f b bs
    (evaluate_choice cfg prompt hint).model = c.1 ∧
      (evaluate_choice cfg prompt hint).endpoint = c.2.1 ∧
      (evaluate_choice cfg prompt hint).lat = f c ∧
      c ∈ routerFiltered cfg prompt hint ∧
      (∀ x ∈ routerFiltered cfg prompt hint, f c ≤ f x) ∧
      ∃ i : Fin (b :: bs).length,
        (b :: bs).get i = c ∧
          ∀ j : Fin (b :: bs).length, (j : ℕ) < (i : ℕ) → f c < f ((b :: bs).get j) := by
  intro f c
  obtain ⟨i, h1, h2, h3⟩ := firstMinBy_spec f b bs
  refine ⟨?_, ?_, ?_, ?_, ?_, ⟨i, h1, h2⟩⟩
  · simp [evaluate_choice, hf]
  · simp [evaluate_choice, hf]
  · simp [evaluate_choice, hf]
  · rw [hf]
    exact firstMinBy_mem f b bs
  · rw [hf]
    intro x hx
    obtain ⟨j, hj⟩ := List.mem_iff_get.mp hx
    exact hj ▸ h3 j

/-- Concrete ranking configuration: two fitting inventory entries on
distinct endpoints, the second with the strictly smaller estimated
latency. -/
def cfgRank : Config :=
  ⟨[("gpu0", "u0"), ("gpu1", "u1")],
    [("gpu0", ⟨some 100, some 50⟩), ("gpu1", ⟨some 100, some 150⟩)],
    [("m0", ⟨"gpu0", ⟨none, some 100, some 1, []⟩⟩),
      ("m1", ⟨"gpu1", ⟨none, some 100, some 1, []⟩⟩)],
    ⟨some 0, some true, [], []⟩, []⟩

/-- C3 witness: the ranking property applied at a concrete configuration
where both candidates survive filtering. -/
theorem C3_witness :
    routerFiltered cfgRank "" none =
        [("m0", "gpu0", ⟨"gpu0", ⟨none, some 100, some 1, []⟩⟩),
          ("m1", "gpu1", ⟨"gpu1", ⟨none, some 100, some 1, []⟩⟩)] ∧
      (evaluate_choice cfgRank "" none).model =
        (firstMinBy (fun t : Cand => est_latency_s cfgRank.hardware t.2.1)
          ("m0", "gpu0", ⟨"gpu0", ⟨none, some 100, some 1, []⟩⟩)
          [("m1", "gpu1", ⟨"gpu1", ⟨none, some 100, some 1, []⟩⟩)]).1 := by
  have hf : routerFiltered cfgRank "" none =
      [("m0", "gpu0", ⟨"gpu0", ⟨none, some 100, some 1, []⟩⟩),
        ("m1", "gpu1", ⟨"gpu1", ⟨none, some 100, some 1, []⟩⟩)] := by
    simp [routerFiltered, routerCandidates, normalizeAlias, alget, filterLoop, candOk,
      fits_context, estimate_tokens, ctxMargin, hwVram, cfgRank]
  exact ⟨hf, (C3_latency_ranking cfgRank "" none _ _ hf).1⟩

end GAR
